import Mathlib

/-!
# Verification of the transcription-with-speaker-diarization pipeline

Shallow embedding of the core pipeline of the repository
(audio chunk splitting, utterance assembly, transcription retry wrapper,
chunked LLM formatting with fallbacks, regex action-item extraction,
final document assembly, and temp-file cleanup), together with theorems
settling the specification claims.

Sources embedded:
* `app/services/audio.py` (`split_audio`)
* `app/services/transcription.py` (`safe_transcribe`)
* `app/services/transcription_workflow.py` (`process_transcription` assembly
  loop and `finally` cleanup block)
* `app/services/llm.py` (`format_transcript_with_llm` and its regex
  action-item extraction fallback)
* `app/utils/common.py` (`format_timestamp`)
-/

namespace Diarize

/-! ## Shared primitives -/

/-- Python's `\s` character class over ASCII (space, tab, newline, carriage
return, vertical tab, form feed). -/
def isWsChar (c : Char) : Bool :=
  c = ' ' || c = '\t' || c = '\n' || c = '\r' || c = '\x0b' || c = '\x0c'

/-- Python `str.strip()`: remove leading and trailing whitespace. -/
def pyStrip (s : String) : String :=
  String.mk (((s.toList.dropWhile isWsChar).reverse.dropWhile isWsChar).reverse)

/-- Python `f"{n:02d}"` for the integers produced by `format_timestamp`. -/
def padTwo (n : Int) : String :=
  if 0 ≤ n ∧ n < 10 then "0" ++ toString n else toString n

/-- Python float floor-division `a // b` modelled on rationals. -/
def qFloorDiv (a b : ℚ) : Int := ⌊a / b⌋

/-- Python float modulo `a % b` (sign of divisor; here used with positive
divisors) modelled on rationals. -/
def qMod (a b : ℚ) : ℚ := a - b * (⌊a / b⌋ : ℚ)

/-- `app/utils/common.py::format_timestamp`: convert seconds to `HH:MM:SS`.
`int()` truncation agrees with the floor since its arguments are
non-negative here (`%` with a positive divisor, `//` of non-negative
times). -/
def format_timestamp (seconds : ℚ) : String :=
  let hours : Int := qFloorDiv seconds 3600
  let minutes : Int := qFloorDiv (qMod seconds 3600) 60
  let secs : Int := ⌊qMod seconds 60⌋
  padTwo hours ++ ":" ++ padTwo minutes ++ ":" ++ padTwo secs

theorem format_timestamp_zero : format_timestamp 0 = "00:00:00" := by
  have h1 : qFloorDiv 0 3600 = 0 := by norm_num [qFloorDiv]
  have h2 : qMod 0 3600 = 0 := by norm_num [qMod]
  have h3 : qFloorDiv 0 60 = 0 := by norm_num [qFloorDiv]
  have h4 : qMod 0 60 = 0 := by norm_num [qMod]
  have h5 : ⌊(0 : ℚ)⌋ = 0 := by norm_num
  rw [format_timestamp]
  rw [h1, h2, h3, h4, h5]
  rfl

/-! ## Chunk Splitter (`app/services/audio.py`) -/

/-- `MAX_CHUNK_DURATION_MS = 20 * 60 * 1000` (20 minutes). -/
def MAX_CHUNK_DURATION_MS : ℕ := 20 * 60 * 1000

/-- A slice produced by `split_audio`: the half-open millisecond window
`[startMs, endMs)` cut out of the input, and the second offset recorded in
the returned descriptor (`start / 1000`). -/
structure ChunkSlice where
  startMs : ℕ
  endMs : ℕ
  offsetSec : ℚ
deriving Repr, DecidableEq

/-- `app/services/audio.py::split_audio`, on the input's duration in
milliseconds.  If the duration is within the ceiling the original file is
returned whole at offset 0; otherwise `ceil(duration / ceiling)` slices
`[i*M, min((i+1)*M, duration))` are exported, slice `i` carrying offset
`i*M / 1000` seconds. -/
def split_audio (duration_ms : ℕ) : List ChunkSlice :=
  if duration_ms ≤ MAX_CHUNK_DURATION_MS then
    [⟨0, duration_ms, 0⟩]
  else
    let num_chunks := (duration_ms + MAX_CHUNK_DURATION_MS - 1) / MAX_CHUNK_DURATION_MS
    (List.range num_chunks).map (fun i =>
      ⟨i * MAX_CHUNK_DURATION_MS,
       min ((i + 1) * MAX_CHUNK_DURATION_MS) duration_ms,
       (i * MAX_CHUNK_DURATION_MS : ℚ) / 1000⟩)

theorem max_chunk_pos : 0 < MAX_CHUNK_DURATION_MS := by norm_num [MAX_CHUNK_DURATION_MS]

/-- The slice lengths `min ((i+1)*M) d - i*M` telescope to `min (n*M) d`. -/
theorem sum_slice_lengths (M d : ℕ) (n : ℕ) :
    ((List.range n).map (fun i => min ((i + 1) * M) d - i * M)).sum = min (n * M) d := by
  induction n with
  | zero => simp
  | succ k ih =>
    rw [List.range_succ, List.map_append, List.sum_append]
    simp only [List.map_cons, List.map_nil, List.sum_cons, List.sum_nil]
    rw [ih]
    have h1 : (k + 1) * M = k * M + M := by ring
    omega

/-- C2: for duration `d` ms, `split_audio` returns one whole-input descriptor at
offset 0 when `d ≤ ceiling`, else `ceil(d/ceiling)` contiguous, non-overlapping
slices of at most `ceiling` ms, slice `i` carrying offset `i*ceiling/1000`
seconds, offsets strictly increasing, and total coverage `d`. -/
theorem split_audio_spec (d : ℕ) :
    (d ≤ MAX_CHUNK_DURATION_MS → split_audio d = [⟨0, d, 0⟩]) ∧
    (MAX_CHUNK_DURATION_MS < d →
      (split_audio d).length = (d + MAX_CHUNK_DURATION_MS - 1) / MAX_CHUNK_DURATION_MS) ∧
    (∀ (i : ℕ) (hi : i < (split_audio d).length),
      ((split_audio d).get ⟨i, hi⟩).endMs - ((split_audio d).get ⟨i, hi⟩).startMs
        ≤ MAX_CHUNK_DURATION_MS
      ∧ ((split_audio d).get ⟨i, hi⟩).offsetSec = (i * MAX_CHUNK_DURATION_MS : ℚ) / 1000) ∧
    (∀ (i : ℕ) (hi : i + 1 < (split_audio d).length),
      ((split_audio d).get ⟨i + 1, hi⟩).startMs
        = ((split_audio d).get ⟨i, Nat.lt_of_succ_lt hi⟩).endMs) ∧
    (∀ (i j : ℕ) (hi : i < (split_audio d).length) (hj : j < (split_audio d).length),
      i < j →
      ((split_audio d).get ⟨i, hi⟩).offsetSec < ((split_audio d).get ⟨j, hj⟩).offsetSec) ∧
    ((split_audio d).map (fun c => c.endMs - c.startMs)).sum = d := by
  by_cases hd : d ≤ MAX_CHUNK_DURATION_MS
  · have he : split_audio d = [⟨0, d, 0⟩] := by simp [split_audio, hd]
    have hlen : (split_audio d).length = 1 := by rw [he]; rfl
    have hget : ∀ (i : ℕ) (hi : i < (split_audio d).length),
        (split_audio d).get ⟨i, hi⟩ = ⟨0, d, 0⟩ := by
      intro i hi
      have hi1 : i < 1 := hlen ▸ hi
      have : i = 0 := by omega
      subst this
      rw [List.get_of_eq he]
      rfl
    refine ⟨fun _ => he, fun h => absurd hd (not_le.mpr h), ?_, ?_, ?_, ?_⟩
    · intro i hi
      rw [hget i hi]
      refine ⟨by simpa using hd, ?_⟩
      have : i = 0 := by omega
      subst this
      simp
    · intro i hi
      have : i + 1 < 1 := hlen ▸ hi
      omega
    · intro i j hi hj hij
      have h1 : i < 1 := hlen ▸ hi
      have h2 : j < 1 := hlen ▸ hj
      omega
    · rw [he]; simp
  · push_neg at hd
    have hMpos : 0 < MAX_CHUNK_DURATION_MS := max_chunk_pos
    set M := MAX_CHUNK_DURATION_MS with hM
    set n := (d + M - 1) / M with hn
    have he : split_audio d
        = (List.range n).map (fun i =>
            ⟨i * M, min ((i + 1) * M) d, (i * M : ℚ) / 1000⟩) := by
      rw [split_audio, if_neg (not_le.mpr hd)]
    have hlen : (split_audio d).length = n := by rw [he]; simp
    have hnM : d ≤ n * M := by
      have h1 := Nat.div_add_mod (d + M - 1) M
      rw [← hn] at h1
      have h2 : (d + M - 1) % M < M := Nat.mod_lt _ hMpos
      have h3 : n * M = M * n := Nat.mul_comm _ _
      omega
    have hget : ∀ (i : ℕ) (hi : i < (split_audio d).length),
        (split_audio d).get ⟨i, hi⟩
          = ⟨i * M, min ((i + 1) * M) d, (i * M : ℚ) / 1000⟩ := by
      intro i hi
      have hi' : i < n := hlen ▸ hi
      rw [List.get_of_eq he, List.get_eq_getElem]
      simp [hi']
    have hbound : ∀ i : ℕ, i + 1 < n → (i + 1) * M ≤ d := by
      intro i hi
      have h1 : (i + 2) * M ≤ n * M := Nat.mul_le_mul_right M (by omega)
      have h2 : n * M ≤ d + M - 1 := Nat.div_mul_le_self _ _
      have h3 : (i + 2) * M = (i + 1) * M + M := by ring
      omega
    refine ⟨fun h => absurd h (not_le.mpr hd), fun _ => hlen, ?_, ?_, ?_, ?_⟩
    · intro i hi
      rw [hget i hi]
      constructor
      · have h1 : (i + 1) * M = i * M + M := by ring
        simp only
        omega
      · rfl
    · intro i hi
      rw [hget (i + 1) hi, hget i (Nat.lt_of_succ_lt hi)]
      have hi' : i + 1 < n := hlen ▸ hi
      have := hbound i hi'
      simp only
      omega
    · intro i j hi hj hij
      rw [hget i hi, hget j hj]
      simp only
      have hij' : (i : ℚ) * M < (j : ℚ) * M := by
        have hMq : (0 : ℚ) < (M : ℚ) := by exact_mod_cast hMpos
        have : (i : ℚ) < (j : ℚ) := by exact_mod_cast hij
        exact mul_lt_mul_of_pos_right this hMq
      have h1000 : (0 : ℚ) < 1000 := by norm_num
      exact (div_lt_div_iff_of_pos_right h1000).mpr hij'
    · rw [he]
      rw [List.map_map]
      have : ((fun c : ChunkSlice => c.endMs - c.startMs) ∘
          (fun i => (⟨i * M, min ((i + 1) * M) d, (i * M : ℚ) / 1000⟩ : ChunkSlice)))
          = fun i => min ((i + 1) * M) d - i * M := rfl
      rw [this, sum_slice_lengths]
      omega

/-- Witness for `split_audio_spec` at a concrete 2,500,000 ms input. -/
theorem split_audio_spec_witness :
    MAX_CHUNK_DURATION_MS < 2500000 ∧
    (split_audio 2500000).length
      = (2500000 + MAX_CHUNK_DURATION_MS - 1) / MAX_CHUNK_DURATION_MS ∧
    ((split_audio 2500000).get ⟨1, by decide⟩).offsetSec
      = (1 * MAX_CHUNK_DURATION_MS : ℚ) / 1000 ∧
    ((split_audio 2500000).map (fun c => c.endMs - c.startMs)).sum = 2500000 :=
  ⟨by norm_num [MAX_CHUNK_DURATION_MS],
   (split_audio_spec 2500000).2.1 (by norm_num [MAX_CHUNK_DURATION_MS]),
   ((split_audio_spec 2500000).2.2.1 1 (by decide)).2,
   (split_audio_spec 2500000).2.2.2.2.2⟩

/-! ## Utterance Assembler (`app/services/transcription_workflow.py` 73-108) -/

/-- A diarized segment as returned by the transcription service for one
chunk, timestamps in chunk-local seconds. -/
structure Segment where
  speaker : String
  text : String
  start : ℚ
  «end» : ℚ
deriving Repr, DecidableEq

/-- One transcribed chunk: its time offset in seconds and the segments in
the order the service returned them. -/
structure TranscribedChunk where
  offset : ℚ
  segments : List Segment
deriving Repr, DecidableEq

/-- An assembled utterance (the dicts built at lines 100-108). -/
structure Utterance where
  speaker : String
  text : String
  start : ℚ
  «end» : ℚ
deriving Repr, DecidableEq

/-- The in-place shift `seg.start += time_offset; seg.end += time_offset`. -/
def shiftSegment (offset : ℚ) (s : Segment) : Segment :=
  { s with start := s.start + offset, «end» := s.«end» + offset }

/-- The chunk loop of `process_transcription` (lines 73-96): chunks are
visited in chunk-index order and every segment is appended to
`all_segments` after shifting by the chunk's offset. -/
def collectSegments (chunks : List TranscribedChunk) : List Segment :=
  chunks.flatMap (fun c => c.segments.map (shiftSegment c.offset))

/-- The `utterances` comprehension (lines 100-108): text stripped,
timestamps taken as already shifted. -/
def prepareUtterances (segs : List Segment) : List Utterance :=
  segs.map (fun s => ⟨s.speaker, pyStrip s.text, s.start, s.«end»⟩)

/-- Full assembly: shifted segments of all chunks, then utterance prep. -/
def assembleUtterances (chunks : List TranscribedChunk) : List Utterance :=
  prepareUtterances (collectSegments chunks)

theorem assembleUtterances_cons (c : TranscribedChunk) (cs : List TranscribedChunk) :
    assembleUtterances (c :: cs)
      = c.segments.map (fun s =>
          ⟨s.speaker, pyStrip s.text, s.start + c.offset, s.«end» + c.offset⟩)
        ++ assembleUtterances cs := by
  simp [assembleUtterances, collectSegments, prepareUtterances, shiftSegment,
    List.map_map, Function.comp]

theorem assembleUtterances_length (cs : List TranscribedChunk) :
    (assembleUtterances cs).length = (cs.map (fun c => c.segments.length)).sum := by
  induction cs with
  | nil => rfl
  | cons c cs ih => rw [assembleUtterances_cons]; simp [ih]

/-- C1: the assembled utterance list has length the sum of per-chunk
segment counts, and the utterance at flat position
`(segment counts of chunks before chunk i) + j` is exactly chunk `i`'s
`j`-th segment with both timestamps shifted by chunk `i`'s offset and its
text whitespace-stripped — so utterances appear in chunk-index order, in
service order within a chunk, with no global re-sort. -/
theorem assembleUtterances_spec (cs : List TranscribedChunk) :
    (assembleUtterances cs).length = (cs.map (fun c => c.segments.length)).sum ∧
    ∀ (i : ℕ) (c : TranscribedChunk), cs[i]? = some c →
    ∀ (j : ℕ) (s : Segment), c.segments[j]? = some s →
      (assembleUtterances cs)[((cs.take i).map (fun c => c.segments.length)).sum + j]?
        = some ⟨s.speaker, pyStrip s.text, s.start + c.offset, s.«end» + c.offset⟩ := by
  refine ⟨assembleUtterances_length cs, ?_⟩
  induction cs with
  | nil => intro i c hc; simp at hc
  | cons c₀ cs ih =>
    intro i c hc j s hs
    cases i with
    | zero =>
      simp only [List.getElem?_cons_zero, Option.some.injEq] at hc
      rcases hc with rfl
      have hj : j < c₀.segments.length := by
        by_contra h
        rw [List.getElem?_eq_none (by omega)] at hs
        exact Option.noConfusion hs
      rw [assembleUtterances_cons]
      simp only [List.take_zero, List.map_nil, List.sum_nil, Nat.zero_add]
      rw [List.getElem?_append_left (by simpa using hj), List.getElem?_map, hs]
      rfl
    | succ i =>
      simp only [List.getElem?_cons_succ] at hc
      rw [assembleUtterances_cons]
      simp only [List.take_succ_cons, List.map_cons, List.sum_cons]
      have hlen : (c₀.segments.map (fun s =>
          (⟨s.speaker, pyStrip s.text, s.start + c₀.offset, s.«end» + c₀.offset⟩ : Utterance))).length
          = c₀.segments.length := by simp
      rw [Nat.add_assoc, ← hlen, List.getElem?_append_right (by omega)]
      have harith : (c₀.segments.map (fun s =>
          (⟨s.speaker, pyStrip s.text, s.start + c₀.offset, s.«end» + c₀.offset⟩ : Utterance))).length
          + (((cs.take i).map (fun c => c.segments.length)).sum + j)
          - (c₀.segments.map (fun s =>
          (⟨s.speaker, pyStrip s.text, s.start + c₀.offset, s.«end» + c₀.offset⟩ : Utterance))).length
          = ((cs.take i).map (fun c => c.segments.length)).sum + j := by omega
      rw [harith]
      exact ih i c hc j s hs

/-- Witness for `assembleUtterances_spec`: the spec's end-to-end example —
three chunks at offsets 0/1200/2400 s, one segment `{"Speaker 0"," hello ",0,2}`
each — assembles to three utterances starting at 0, 1200, 2400. -/
theorem assembleUtterances_spec_witness :
    (assembleUtterances
        [⟨0, [⟨"Speaker 0", " hello ", 0, 2⟩]⟩,
         ⟨1200, [⟨"Speaker 0", " hello ", 0, 2⟩]⟩,
         ⟨2400, [⟨"Speaker 0", " hello ", 0, 2⟩]⟩]).length = 3 ∧
    (assembleUtterances
        [⟨0, [⟨"Speaker 0", " hello ", 0, 2⟩]⟩,
         ⟨1200, [⟨"Speaker 0", " hello ", 0, 2⟩]⟩,
         ⟨2400, [⟨"Speaker 0", " hello ", 0, 2⟩]⟩])[2]?
      = some ⟨"Speaker 0", pyStrip " hello ", 0 + 2400, 2 + 2400⟩ :=
  ⟨(assembleUtterances_spec _).1.trans (by decide),
   by
    have h := (assembleUtterances_spec
        [⟨0, [⟨"Speaker 0", " hello ", 0, 2⟩]⟩,
         ⟨1200, [⟨"Speaker 0", " hello ", 0, 2⟩]⟩,
         ⟨2400, [⟨"Speaker 0", " hello ", 0, 2⟩]⟩]).2 2
        ⟨2400, [⟨"Speaker 0", " hello ", 0, 2⟩]⟩ (by rfl) 0
        ⟨"Speaker 0", " hello ", 0, 2⟩ (by rfl)
    simpa using h⟩

/-! ## Transcription retry wrapper (`app/services/transcription.py`) -/

/-- Does the first character list start the second? -/
def leadsWith : List Char → List Char → Bool
  | [], _ => true
  | _ :: _, [] => false
  | p :: ps, c :: cs => p = c && leadsWith ps cs

/-- Does the first character list occur contiguously in the second? -/
def occursIn (pat : List Char) : List Char → Bool
  | [] => pat.isEmpty
  | c :: rest => leadsWith pat (c :: rest) || occursIn pat rest

/-- `str(e).lower()` as a character list. -/
def lowered (s : String) : List Char := s.toList.map Char.toLower

/-- The error classes distinguishable by `safe_transcribe`'s handlers:
the two caught OpenAI types, and any other exception with its message. -/
inductive TError where
  | internalServerError (msg : String)
  | apiTimeout (msg : String)
  | other (msg : String)
deriving Repr, DecidableEq

/-- Whether `safe_transcribe` retries an error: `InternalServerError` and
`APITimeoutError` always; any other exception only when its lowercased
message contains `"connect error"`, `"disconnect"` or `"reset"`. -/
def isRetryable : TError → Bool
  | .internalServerError _ => true
  | .apiTimeout _ => true
  | .other msg =>
      occursIn "connect error".toList (lowered msg)
        || occursIn "disconnect".toList (lowered msg)
        || occursIn "reset".toList (lowered msg)

/-- `max_retries = 5`. -/
def max_retries : ℕ := 5

/-- `base_delay = 3` seconds. -/
def base_delay : ℕ := 3

/-- Observable outcome of a `safe_transcribe` run: the returned value or
raised error, the `time.sleep` durations performed in order, and the
number of calls made to the client. -/
structure RetryTrace (α : Type) where
  result : Except TError α
  sleeps : List ℕ
  attempts : ℕ
deriving Repr

/-- The retry loop of `safe_transcribe`.  `fuel` only bounds the recursion:
entered with `fuel = max_retries` and `attempt = 1`, the
`attempt = max_retries → raise` guard fires before fuel can run out, so the
fuel-exhausted branch is unreachable from `safe_transcribe`. -/
def safeGo (client : ℕ → Except TError α) :
    ℕ → ℕ → ℕ → List ℕ → RetryTrace α
  | 0, _, calls, log => ⟨.error (.other "loop exhausted"), log, calls⟩
  | fuel + 1, attempt, calls, log =>
    match client attempt with
    | .ok v => ⟨.ok v, log, calls + 1⟩
    | .error e =>
      if isRetryable e then
        if attempt = max_retries then ⟨.error e, log, calls + 1⟩
        else safeGo client fuel (attempt + 1) (calls + 1) (log ++ [base_delay * attempt])
      else ⟨.error e, log, calls + 1⟩

/-- `app/services/transcription.py::safe_transcribe`, with the client's
per-attempt behaviour abstracted as a function of the (1-based) attempt
number. -/
def safe_transcribe (client : ℕ → Except TError α) : RetryTrace α :=
  safeGo client max_retries 1 0 []

theorem safeGo_attempts_le (client : ℕ → Except TError α) :
    ∀ (fuel attempt calls : ℕ) (log : List ℕ),
      (safeGo client fuel attempt calls log).attempts ≤ calls + fuel := by
  intro fuel
  induction fuel with
  | zero => intro attempt calls log; simp [safeGo]
  | succ fuel ih =>
    intro attempt calls log
    rw [safeGo]
    cases client attempt with
    | ok v => simp
    | error e =>
      by_cases hr : isRetryable e
      · by_cases ha : attempt = max_retries
        · simp [hr, ha]
        · simp only [hr, ha, if_true, if_false, if_neg ha]
          calc (safeGo client fuel (attempt + 1) (calls + 1)
                  (log ++ [base_delay * attempt])).attempts
              ≤ (calls + 1) + fuel := ih _ _ _
            _ ≤ calls + (fuel + 1) := by omega
      · simp [hr]

/-- C3: `safe_transcribe` makes at most 5 attempts; with `k < 5` retryable
failures then a success it returns the success after `k` failures, having
slept `3·1, …, 3·k` seconds (3, 6, 9, 12 before attempts 2–5); with a
client that always fails retryably it raises the attempt-5 error after
exactly 5 attempts, sleeping 3, 6, 9, 12; a non-retryable error on attempt
1 is raised at once, with no sleep. -/
theorem safe_transcribe_spec (α : Type) :
    (∀ client : ℕ → Except TError α, (safe_transcribe client).attempts ≤ 5) ∧
    (∀ (client : ℕ → Except TError α) (k : ℕ), k < 5 → ∀ v : α,
      (∀ i, 1 ≤ i → i ≤ k → ∃ e, client i = .error e ∧ isRetryable e = true) →
      client (k + 1) = .ok v →
      safe_transcribe client
        = ⟨.ok v, (List.range k).map (fun i => base_delay * (i + 1)), k + 1⟩) ∧
    (∀ (client : ℕ → Except TError α) (f : ℕ → TError),
      (∀ i, 1 ≤ i → i ≤ 5 → client i = .error (f i) ∧ isRetryable (f i) = true) →
      safe_transcribe client = ⟨.error (f 5), [3, 6, 9, 12], 5⟩) ∧
    (∀ (client : ℕ → Except TError α) (e : TError),
      client 1 = .error e → isRetryable e = false →
      safe_transcribe client = ⟨.error e, [], 1⟩) := by
  refine ⟨?_, ?_, ?_, ?_⟩
  · intro client
    have := safeGo_attempts_le client max_retries 1 0 []
    simpa [safe_transcribe, max_retries] using this
  · intro client k hk v hfail hsucc
    interval_cases k
    · simp [safe_transcribe, safeGo, hsucc]
    · obtain ⟨e₁, hc₁, hr₁⟩ := hfail 1 (by omega) (by omega)
      simp [safe_transcribe, safeGo, hc₁, hr₁, hsucc, max_retries, base_delay,
        List.range_succ]
    · obtain ⟨e₁, hc₁, hr₁⟩ := hfail 1 (by omega) (by omega)
      obtain ⟨e₂, hc₂, hr₂⟩ := hfail 2 (by omega) (by omega)
      simp [safe_transcribe, safeGo, hc₁, hr₁, hc₂, hr₂, hsucc, max_retries,
        base_delay, List.range_succ]
    · obtain ⟨e₁, hc₁, hr₁⟩ := hfail 1 (by omega) (by omega)
      obtain ⟨e₂, hc₂, hr₂⟩ := hfail 2 (by omega) (by omega)
      obtain ⟨e₃, hc₃, hr₃⟩ := hfail 3 (by omega) (by omega)
      simp [safe_transcribe, safeGo, hc₁, hr₁, hc₂, hr₂, hc₃, hr₃, hsucc,
        max_retries, base_delay, List.range_succ]
    · obtain ⟨e₁, hc₁, hr₁⟩ := hfail 1 (by omega) (by omega)
      obtain ⟨e₂, hc₂, hr₂⟩ := hfail 2 (by omega) (by omega)
      obtain ⟨e₃, hc₃, hr₃⟩ := hfail 3 (by omega) (by omega)
      obtain ⟨e₄, hc₄, hr₄⟩ := hfail 4 (by omega) (by omega)
      simp [safe_transcribe, safeGo, hc₁, hr₁, hc₂, hr₂, hc₃, hr₃, hc₄, hr₄,
        hsucc, max_retries, base_delay, List.range_succ]
  · intro client f hfail
    have h₁ := hfail 1 (by omega) (by omega)
    have h₂ := hfail 2 (by omega) (by omega)
    have h₃ := hfail 3 (by omega) (by omega)
    have h₄ := hfail 4 (by omega) (by omega)
    have h₅ := hfail 5 (by omega) (by omega)
    simp [safe_transcribe, safeGo, h₁.1, h₁.2, h₂.1, h₂.2, h₃.1, h₃.2,
      h₄.1, h₄.2, h₅.1, h₅.2, max_retries, base_delay]
  · intro client e hc hr
    simp [safe_transcribe, safeGo, hc, hr]

/-- Witness for `safe_transcribe_spec`: a client failing twice with a
connection-reset message and then succeeding is retried and returns the
success after sleeps 3 and 6. -/
theorem safe_transcribe_spec_witness :
    safe_transcribe (fun i =>
        if i ≤ 2 then Except.error (TError.other "Connection reset by peer")
        else Except.ok (42 : ℕ))
      = ⟨Except.ok 42, (List.range 2).map (fun i => base_delay * (i + 1)), 3⟩ :=
  (safe_transcribe_spec ℕ).2.1
    (fun i => if i ≤ 2 then Except.error (TError.other "Connection reset by peer")
              else Except.ok 42)
    2 (by omega) 42
    (fun i h1 h2 => ⟨TError.other "Connection reset by peer",
      by simp [show i ≤ 2 from h2], by decide⟩)
    (by simp)

/-! ## Chunked Formatter (`app/services/llm.py::format_transcript_with_llm`) -/

/-- `chunk_size = 50` utterances per formatting window. -/
def chunk_size : ℕ := 50

/-- `total_chunks = math.ceil(len(utterances) / chunk_size)`. -/
def totalChunksOf (n : ℕ) : ℕ := (n + chunk_size - 1) / chunk_size

/-- Window `i`: `utterances[start_idx:end_idx]` with `start_idx = i*50`,
`end_idx = min((i+1)*50, len)`. -/
def windowOf (us : List Utterance) (i : ℕ) : List Utterance :=
  (us.drop (i * chunk_size)).take chunk_size

/-- `prev_chunk = utterances[start_idx-3:start_idx]`, the context slice used
for window `i > 0`. -/
def contextItemsOf (us : List Utterance) (i : ℕ) : List Utterance :=
  (us.drop (i * chunk_size - 3)).take 3

/-- Python `"\n".join` / `"\n\n".join`. -/
def joinWith (sep : String) : List String → String
  | [] => ""
  | [s] => s
  | s :: s' :: rest => s ++ sep ++ joinWith sep (s' :: rest)

/-- `context_str` for window `i`: empty for the first window, otherwise the
read-only context block with its do-not-repeat instruction. -/
def contextStrOf (us : List Utterance) (i : ℕ) : String :=
  if i = 0 then ""
  else
    "\n\nCONTEXT FROM PREVIOUS CHUNK (DO NOT REPEAT, JUST FOR CONTEXT):\n"
      ++ joinWith "\n" ((contextItemsOf us i).map (fun u => u.speaker ++ ": " ++ u.text))
      ++ "\n"

/-- One per-window LLM request as the workflow builds it: the context block
prepended to the user message and the window's own segments (the
`chunk_data["segments"]` payload). -/
structure WindowRequest where
  contextStr : String
  segments : List Utterance
deriving Repr, DecidableEq

/-- The sequence of window requests issued by the Phase-1 loop
(`for i in range(total_chunks)`). -/
def windowRequests (us : List Utterance) : List WindowRequest :=
  (List.range (totalChunksOf us.length)).map (fun i => ⟨contextStrOf us i, windowOf us i⟩)

theorem lt_totalChunks_mul (n i : ℕ) (hi : i < totalChunksOf n) : i * chunk_size < n := by
  simp only [totalChunksOf, chunk_size] at *
  omega

/-- C4: the Phase-1 loop issues exactly `ceil(n/50)` window requests over
the fixed 50-utterance windows, and every request for a window `i > 0`
carries exactly the last 3 utterances of window `i-1` as its read-only
context, wrapped in the explicit do-not-repeat instruction. -/
theorem windowRequests_spec (us : List Utterance) :
    (windowRequests us).length = totalChunksOf us.length ∧
    (∀ (i : ℕ), i < totalChunksOf us.length →
      (windowRequests us)[i]? = some ⟨contextStrOf us i, windowOf us i⟩) ∧
    (∀ (i : ℕ), 0 < i → i < totalChunksOf us.length →
      contextItemsOf us i = (windowOf us (i - 1)).drop (chunk_size - 3) ∧
      (contextItemsOf us i).length = 3 ∧
      contextStrOf us i
        = "\n\nCONTEXT FROM PREVIOUS CHUNK (DO NOT REPEAT, JUST FOR CONTEXT):\n"
          ++ joinWith "\n" ((contextItemsOf us i).map (fun u => u.speaker ++ ": " ++ u.text))
          ++ "\n") := by
  refine ⟨by simp [windowRequests], ?_, ?_⟩
  · intro i hi
    simp [windowRequests, hi]
  · intro i h0 hi
    have hmul : i * chunk_size < us.length := lt_totalChunks_mul _ _ hi
    simp only [chunk_size] at hmul
    refine ⟨?_, ?_, by simp [contextStrOf, Nat.pos_iff_ne_zero.mp h0]⟩
    · rw [contextItemsOf, windowOf, List.drop_take, List.drop_drop]
      simp only [chunk_size]
      have h1 : (i - 1) * 50 + (50 - 3) = i * 50 - 3 := by omega
      have h2 : 50 - (50 - 3) = 3 := by norm_num
      rw [h1, h2]
    · rw [contextItemsOf, List.length_take, List.length_drop]
      simp only [chunk_size]
      omega

/-- Witness for `windowRequests_spec` on a concrete 51-utterance list:
two windows, and window 1's context is the last 3 utterances of window 0. -/
theorem windowRequests_spec_witness :
    (windowRequests (List.replicate 51 (⟨"S", "t", 0, 1⟩ : Utterance))).length
      = totalChunksOf 51 ∧
    contextItemsOf (List.replicate 51 (⟨"S", "t", 0, 1⟩ : Utterance)) 1
      = (windowOf (List.replicate 51 (⟨"S", "t", 0, 1⟩ : Utterance)) 0).drop
          (chunk_size - 3) ∧
    (contextItemsOf (List.replicate 51 (⟨"S", "t", 0, 1⟩ : Utterance)) 1).length = 3 := by
  have h := windowRequests_spec (List.replicate 51 (⟨"S", "t", 0, 1⟩ : Utterance))
  have h2 := h.2.2 1 (by norm_num) (by norm_num [totalChunksOf, chunk_size])
  exact ⟨by simpa using h.1, h2.1, h2.2.1⟩

/-! ## Per-window outputs and the fallback rendering (`llm.py` 110-136) -/

/-- Does `s` end with `pat`? -/
def trailsWith (pat s : String) : Bool := leadsWith pat.toList.reverse s.toList.reverse

/-- The defensive code-fence cleanup applied to a model response (lines
124-126): drop a leading ```` ```markdown ```` or ```` ``` ```` (the
`replace(x, "", 1)` removes the first occurrence, which under the
`startswith` guard is the prefix) and a trailing ```` ``` ````. -/
def stripFences (part : String) : String :=
  let p1 := if leadsWith "```markdown".toList part.toList
            then String.mk (part.toList.drop 11) else part
  let p2 := if leadsWith "```".toList p1.toList
            then String.mk (p1.toList.drop 3) else p1
  if trailsWith "```" p2 then String.mk (p2.toList.take (p2.toList.length - 3)) else p2

/-- Success path for one window: `content.strip()`, fence cleanup, and the
final `part.strip()` at append time (lines 122-128). -/
def chunkSuccessText (resp : String) : String := pyStrip (stripFences (pyStrip resp))

/-- The deterministic per-window fallback (line 133): blank-line-separated
entries, each `**speaker** (HH:MM:SS)` and then the text on the next line. -/
def fallbackRender (ws : List Utterance) : String :=
  joinWith "\n\n" (ws.map (fun u =>
    "**" ++ u.speaker ++ "** (" ++ format_timestamp u.start ++ ")\n" ++ u.text))

/-- Modelled from the spec (refinement comparison only): the fallback shape
the specification's words describe, `speaker (formatted-timestamp): text`,
blank-line separated. -/
def specFallbackRender (ws : List Utterance) : String :=
  joinWith "\n\n" (ws.map (fun u =>
    u.speaker ++ " (" ++ format_timestamp u.start ++ "): " ++ u.text))

/-- Per-window outcome, with the LLM call abstracted as `oracle i`
(`.error` models the request raising): cleaned response on success,
deterministic fallback on exception; the loop never aborts. -/
def windowOutput (oracle : ℕ → Except Unit String) (us : List Utterance) (i : ℕ) : String :=
  match oracle i with
  | .ok resp => chunkSuccessText resp
  | .error _ => fallbackRender (windowOf us i)

/-- `full_conversation_text = "\n\n".join(formatted_conversation_parts)`. -/
def fullConversationText (oracle : ℕ → Except Unit String) (us : List Utterance) : String :=
  joinWith "\n\n" ((List.range (totalChunksOf us.length)).map (windowOutput oracle us))

/-- C5 counterexample: on a failing window the code's fallback output is
`**Speaker 0** (00:00:00)\nhello`, not the `speaker (formatted-timestamp):
text` shape the claim states. -/
theorem windowFallback_shape_counterexample :
    windowOutput (fun _ => Except.error ()) [⟨"Speaker 0", "hello", 0, 2⟩] 0
      ≠ specFallbackRender (windowOf [⟨"Speaker 0", "hello", 0, 2⟩] 0) ∧
    windowOutput (fun _ => Except.error ()) [⟨"Speaker 0", "hello", 0, 2⟩] 0
      = "**Speaker 0** (00:00:00)\nhello" := by
  have hL : windowOutput (fun _ => Except.error ()) [⟨"Speaker 0", "hello", 0, 2⟩] 0
      = "**Speaker 0** (" ++ format_timestamp 0 ++ ")\n" ++ "hello" := rfl
  have hR : specFallbackRender (windowOf [⟨"Speaker 0", "hello", 0, 2⟩] 0)
      = "Speaker 0 (" ++ format_timestamp 0 ++ "): " ++ "hello" := rfl
  rw [hL, hR, format_timestamp_zero]
  exact ⟨by decide, by decide⟩

/-- C5 (amended): on an exception for window `i` the pipeline substitutes
the deterministic fallback rendering of that window —
`**speaker** (formatted-timestamp)` with the text on the following line,
entries blank-line separated — leaves every other window's output
untouched, and concatenates all window outputs in window order separated
by a blank line. -/
theorem windowFallback_spec (oracle oracle' : ℕ → Except Unit String)
    (us : List Utterance) (i : ℕ) :
    (oracle i = Except.error () →
      windowOutput oracle us i = fallbackRender (windowOf us i)) ∧
    ((∀ j, j ≠ i → oracle' j = oracle j) →
      ∀ j, j ≠ i → windowOutput oracle' us j = windowOutput oracle us j) ∧
    fullConversationText oracle us
      = joinWith "\n\n"
          ((List.range (totalChunksOf us.length)).map (windowOutput oracle us)) ∧
    fallbackRender (windowOf us i)
      = joinWith "\n\n" ((windowOf us i).map (fun u =>
          "**" ++ u.speaker ++ "** (" ++ format_timestamp u.start ++ ")\n" ++ u.text)) := by
  refine ⟨?_, ?_, rfl, rfl⟩
  · intro h
    simp [windowOutput, h]
  · intro hag j hj
    simp [windowOutput, hag j hj]

/-- Witness for `windowFallback_spec`: a concrete failing window renders
as the code's fallback. -/
theorem windowFallback_spec_witness :
    windowOutput (fun _ => Except.error ()) [⟨"Speaker 0", "hello", 0, 2⟩] 0
      = fallbackRender (windowOf [⟨"Speaker 0", "hello", 0, 2⟩] 0) :=
  (windowFallback_spec (fun _ => Except.error ()) (fun _ => Except.error ())
    [⟨"Speaker 0", "hello", 0, 2⟩] 0).1 rfl

/-! ## Regex action-item extraction fallback (`llm.py` 212-250)

The extraction uses three regexes; each is embedded by a specialised
matcher whose backtracking behaviour coincides with the regex engine's on
these patterns:

* heading search `#+\s*Action Items\s*\n(.*?)(?=\n#|\Z)`
  (`re.DOTALL | re.IGNORECASE`): `#+` and the `\s*`s are effectively
  maximal runs, since backtracking them only exposes characters the next
  pattern element can never match; the final `\s*\n` makes the match end
  at the last newline of the whitespace run after the title; the lazy
  capture stops at the first `\n#` or end of string;
* bullet scan `^[•-]\s*(.*)` (`re.MULTILINE`): at each line start, after
  the bullet marker the greedy `\s*` may cross newlines and the capture is
  the remainder of the line it stops in;
* name patterns `([A-Z][a-z]+(?:\s[A-Z][a-z]+)?)\s+(?:will|to|should)\s+(.*)`
  (`re.IGNORECASE`) and `([A-Z][a-z]+(?:\s[A-Z][a-z]+)?):\s+(.*)`: the
  name words are maximal letter runs (a shorter run would put a letter
  where `\s`, `:` or the keyword's trailing `\s` is required), the
  keyword run must equal `will`/`to`/`should` exactly, and the greedy
  two-word alternative is tried before the one-word one. -/

/-- The `ActionItem` dicts appended at lines 242-247. -/
structure ActionItem where
  title : String
  description : String
  assigned_to : String
  priority : String
deriving Repr, DecidableEq

def isHashChar (c : Char) : Bool := c == '#'

def notNlChar (c : Char) : Bool := !(c == '\n')

/-- Case-insensitive literal match at the head; returns the remainder. -/
def matchLiteralCI : List Char → List Char → Option (List Char)
  | [], cs => some cs
  | _ :: _, [] => none
  | p :: ps, c :: cs => if p.toLower = c.toLower then matchLiteralCI ps cs else none

/-- The lazy capture `(.*?)(?=\n#|\Z)` under `re.DOTALL`: the shortest
prefix whose continuation is `\n#` or the end of input. -/
def captureUntilHeading : List Char → List Char
  | [] => []
  | '\n' :: '#' :: _ => []
  | c :: rest => c :: captureUntilHeading rest

/-- One attempt of the heading regex at a fixed start position. -/
def matchHeadingAt (cs : List Char) : Option (List Char) :=
  match cs with
  | '#' :: rest =>
    let r1 := rest.dropWhile isHashChar
    let r2 := r1.dropWhile isWsChar
    match matchLiteralCI "action items".toList r2 with
    | none => none
    | some r3 =>
      let run := r3.takeWhile isWsChar
      let rest' := r3.drop run.length
      if run.contains '\n' then
        let tailAfter := (run.reverse.takeWhile notNlChar).reverse
        some (captureUntilHeading (tailAfter ++ rest'))
      else none
  | _ => none

/-- `re.search` for the heading: try each start position left to right. -/
def findHeadingContent : List Char → Option (List Char)
  | [] => none
  | c :: rest =>
    match matchHeadingAt (c :: rest) with
    | some content => some content
    | none => findHeadingContent rest

/-- `re.findall(r"^[•-]\s*(.*)", content, re.MULTILINE)`: scan left to
right, matching at line starts; scanning resumes after each capture.  The
structural `fuel` only bounds the recursion: every step strictly shortens
the character list, so the `cs.length + 1` budget `findBullets` passes in
is never exhausted. -/
def findBulletsGo : ℕ → Bool → List Char → List (List Char)
  | 0, _, _ => []
  | _ + 1, _, [] => []
  | fuel + 1, atLineStart, c :: rest =>
    if atLineStart && (c = '-' || c = '•') then
      ((rest.drop (rest.takeWhile isWsChar).length).takeWhile notNlChar)
        :: findBulletsGo fuel false
            ((rest.drop (rest.takeWhile isWsChar).length).drop
              ((rest.drop (rest.takeWhile isWsChar).length).takeWhile notNlChar).length)
    else
      findBulletsGo fuel (c == '\n') rest

def findBullets (atLineStart : Bool) (cs : List Char) : List (List Char) :=
  findBulletsGo (cs.length + 1) atLineStart cs

def isAsciiLower (c : Char) : Bool := 'a' ≤ c && c ≤ 'z'

def isAsciiUpper (c : Char) : Bool := 'A' ≤ c && c ≤ 'Z'

/-- `[A-Z]`/`[a-z]` under `re.IGNORECASE`: any ASCII letter. -/
def isAsciiLetter (c : Char) : Bool := isAsciiLower c || isAsciiUpper c

/-- Does the letter run equal this keyword, case-insensitively? -/
def runIsKeyword (run : List Char) (kw : String) : Bool :=
  run.map Char.toLower == kw.toList

/-- `\s+(?:will|to|should)\s+(.*)` after the name group (IGNORECASE). -/
def keywordTail (cs : List Char) : Option (List Char) :=
  let ws := cs.takeWhile isWsChar
  if ws.isEmpty then none
  else
    let r := cs.drop ws.length
    let kw := r.takeWhile isAsciiLetter
    let r2 := r.drop kw.length
    if runIsKeyword kw "will" || runIsKeyword kw "to" || runIsKeyword kw "should" then
      let ws2 := r2.takeWhile isWsChar
      if ws2.isEmpty then none
      else some (r2.drop ws2.length)
    else none

/-- `^([A-Z][a-z]+(?:\s[A-Z][a-z]+)?)\s+(?:will|to|should)\s+(.*)` with
IGNORECASE: name and capture on success. -/
def nameMatch1 (cs : List Char) : Option (String × String) :=
  let w1 := cs.takeWhile isAsciiLetter
  if w1.length < 2 then none
  else
    let r1 := cs.drop w1.length
    let twoWord : Option (String × String) :=
      match r1 with
      | c :: r2 =>
        if isWsChar c then
          let w2 := r2.takeWhile isAsciiLetter
          if 2 ≤ w2.length then
            match keywordTail (r2.drop w2.length) with
            | some rest => some (String.mk (w1 ++ c :: w2), String.mk rest)
            | none => none
          else none
        else none
      | [] => none
    match twoWord with
    | some res => some res
    | none =>
      match keywordTail r1 with
      | some rest => some (String.mk w1, String.mk rest)
      | none => none

/-- `:\s+(.*)` after the (case-sensitive) name group of the second name
pattern. -/
def afterColon (name : List Char) (r4 : List Char) : Option (String × String) :=
  let ws := r4.takeWhile isWsChar
  if ws.isEmpty then none
  else some (String.mk name, String.mk (r4.drop ws.length))

/-- One word `[A-Z][a-z]+` (case-sensitive, maximal lowercase run). -/
def csWord (cs : List Char) : Option (List Char × List Char) :=
  match cs with
  | c :: rest =>
    if isAsciiUpper c then
      let lows := rest.takeWhile isAsciiLower
      if lows.isEmpty then none
      else some (c :: lows, rest.drop lows.length)
    else none
  | [] => none

/-- `^([A-Z][a-z]+(?:\s[A-Z][a-z]+)?):\s+(.*)` (no IGNORECASE). -/
def nameMatch2 (cs : List Char) : Option (String × String) :=
  match csWord cs with
  | none => none
  | some (w1, r1) =>
    let twoWord : Option (String × String) :=
      match r1 with
      | c :: r2 =>
        if isWsChar c then
          match csWord r2 with
          | some (w2, r3) =>
            match r3 with
            | ':' :: r4 => afterColon (w1 ++ c :: w2) r4
            | _ => none
          | none => none
        else none
      | [] => none
    match twoWord with
    | some res => some res
    | none =>
      match r1 with
      | ':' :: r4 => afterColon w1 r4
      | _ => none

/-- Lines 225-247: strip the bullet capture, try the name patterns in
order, default `assigned_to` to `""` and priority to `"Medium"`. -/
def parseBullet (line : String) : ActionItem :=
  match nameMatch1 line.toList with
  | some (n, t) => ⟨t, line, n, "Medium"⟩
  | none =>
    match nameMatch2 line.toList with
    | some (n, t) => ⟨t, line, n, "Medium"⟩
    | none => ⟨line, line, "", "Medium"⟩

/-- The whole regex extraction fallback (lines 216-247): find the Action
Items heading, collect the bullet captures beneath it, strip them, skip
empties, and parse each into an `ActionItem`. -/
def extractActionItems (summary : String) : List ActionItem :=
  match findHeadingContent summary.toList with
  | none => []
  | some content =>
    (((findBullets true content).map (fun cap => pyStrip (String.mk cap))).filter
        (fun l => l ≠ "")).map parseBullet

theorem dropWhile_isHash_replicate (k : ℕ) (t : List Char) :
    List.dropWhile isHashChar (List.replicate k '#' ++ ' ' :: t) = ' ' :: t := by
  induction k with
  | zero => simp [List.dropWhile_cons, isHashChar]
  | succ k ih => simp [List.replicate_succ, List.dropWhile_cons, isHashChar, ih]

theorem matchHeadingAt_hashes (k : ℕ) (t : List Char) :
    matchHeadingAt ('#' :: (List.replicate k '#' ++ ' ' :: t))
      = matchHeadingAt ('#' :: ' ' :: t) := by
  have h0 : List.dropWhile isHashChar (' ' :: t) = ' ' :: t := by
    simp [List.dropWhile_cons, isHashChar]
  simp only [matchHeadingAt]
  rw [dropWhile_isHash_replicate, h0]

theorem findHeadingContent_hashes (k : ℕ) (t c : List Char)
    (h : matchHeadingAt ('#' :: ' ' :: t) = some c) :
    findHeadingContent ('#' :: (List.replicate k '#' ++ ' ' :: t)) = some c := by
  have hmh := (matchHeadingAt_hashes k t).trans h
  simp only [findHeadingContent, hmh]

theorem parseBullet_priority (line : String) : (parseBullet line).priority = "Medium" := by
  rcases h1 : nameMatch1 line.data with _ | ⟨n, t⟩
  · rcases h2 : nameMatch2 line.data with _ | ⟨n, t⟩
    · simp [parseBullet, h1, h2]
    · simp [parseBullet, h1, h2]
  · simp [parseBullet, h1]

/-- C6: on the spec's example block the extraction yields exactly the two
stated items; the heading matches case-insensitively at any heading level;
bullets are taken only up to the next heading; a bullet matching no name
pattern becomes a title with empty `assigned_to`; and every extracted item
has priority Medium. -/
theorem extractActionItems_spec :
    extractActionItems "## Action Items\n- Alice will send the report\n- Review budget"
      = [⟨"send the report", "Alice will send the report", "Alice", "Medium"⟩,
         ⟨"Review budget", "Review budget", "", "Medium"⟩] ∧
    (∀ k : ℕ,
      extractActionItems
          (String.mk (List.replicate (k + 1) '#') ++ " aCtIoN iTeMs\n- Bob will call")
        = [⟨"call", "Bob will call", "Bob", "Medium"⟩]) ∧
    extractActionItems
        "## Action Items\n- Alice will send the report\n## Decisions\n- Review budget"
      = [⟨"send the report", "Alice will send the report", "Alice", "Medium"⟩] ∧
    (∀ line : String, nameMatch1 line.toList = none → nameMatch2 line.toList = none →
      parseBullet line = ⟨line, line, "", "Medium"⟩) ∧
    (∀ (s : String) (it : ActionItem), it ∈ extractActionItems s →
      it.priority = "Medium") := by
  refine ⟨by set_option maxRecDepth 8192 in rfl, ?_,
    by set_option maxRecDepth 8192 in rfl, ?_, ?_⟩
  · intro k
    have htl : (String.mk (List.replicate (k + 1) '#')
          ++ " aCtIoN iTeMs\n- Bob will call").toList
        = '#' :: (List.replicate k '#' ++ ' ' :: "aCtIoN iTeMs\n- Bob will call".toList) := by
      have h1 : (String.mk (List.replicate (k + 1) '#')
            ++ " aCtIoN iTeMs\n- Bob will call").toList
          = List.replicate (k + 1) '#' ++ " aCtIoN iTeMs\n- Bob will call".toList := rfl
      rw [h1, List.replicate_succ, List.cons_append]
      rfl
    have hfind := findHeadingContent_hashes k
      ("aCtIoN iTeMs\n- Bob will call".toList) ("- Bob will call".toList)
      (by set_option maxRecDepth 8192 in rfl)
    simp only [extractActionItems, htl, hfind]
    set_option maxRecDepth 8192 in rfl
  · intro line h1 h2
    simp only [String.toList] at h1 h2
    simp [parseBullet, h1, h2]
  · intro s it hit
    rcases hfind : findHeadingContent s.data with _ | content
    · simp [extractActionItems, String.toList, hfind] at hit
    · simp only [extractActionItems, String.toList, hfind] at hit
      obtain ⟨b, _, rfl⟩ := List.mem_map.mp hit
      exact parseBullet_priority b

/-- Witness for `extractActionItems_spec`: the no-name-pattern case on the
concrete bullet `Review budget`. -/
theorem extractActionItems_spec_witness :
    parseBullet "Review budget"
      = ⟨"Review budget", "Review budget", "", "Medium"⟩ :=
  extractActionItems_spec.2.2.2.1 "Review budget" (by rfl) (by rfl)

/-! ## Fallback gating for the structured action-item list (`llm.py` 212-214) -/

/-- The Phase-3 guard `if not action_items and summary_section:` followed by
the regex extraction, which appends only to the (then empty) list. -/
def resolveActionItems (summary : String) (items : List ActionItem) : List ActionItem :=
  if items.isEmpty ∧ summary ≠ "" then extractActionItems summary else items

/-- C7: the regex extraction runs iff the structured list is empty and a
markdown summary exists, so it never appends to a non-empty list. -/
theorem resolveActionItems_spec :
    (∀ (s : String) (items : List ActionItem), items ≠ [] →
      resolveActionItems s items = items) ∧
    (∀ s : String, s ≠ "" → resolveActionItems s [] = extractActionItems s) ∧
    (∀ items : List ActionItem, resolveActionItems "" items = items) := by
  refine ⟨?_, ?_, ?_⟩
  · intro s items hne
    rw [resolveActionItems, if_neg]
    rintro ⟨hemp, -⟩
    exact hne (List.isEmpty_iff.mp hemp)
  · intro s hs
    rw [resolveActionItems, if_pos ⟨rfl, hs⟩]
  · intro items
    rw [resolveActionItems, if_neg]
    rintro ⟨-, hne⟩
    exact hne rfl

/-- Witness for `resolveActionItems_spec`: a non-empty structured list is
returned unchanged even though the summary has an Action Items block. -/
theorem resolveActionItems_spec_witness :
    resolveActionItems "## Action Items\n- Alice will send the report"
        [⟨"t", "d", "a", "Medium"⟩]
      = [⟨"t", "d", "a", "Medium"⟩] :=
  resolveActionItems_spec.1 "## Action Items\n- Alice will send the report"
    [⟨"t", "d", "a", "Medium"⟩] (by simp)

/-! ## Document assembly (`llm.py` 61-70 and 251-267) -/

/-- `max(u['end'] for u in utterances)` (the list is non-empty when used). -/
def maxEnd : List Utterance → ℚ
  | [] => 0
  | [u] => u.«end»
  | u :: u' :: rest => max u.«end» (maxEnd (u' :: rest))

/-- `duration_str` (line 66), from the non-empty branch of line 62. -/
def durationStrOf (us : List Utterance) : String :=
  let hours : Int := qFloorDiv (maxEnd us) 3600
  let minutes : Int := qFloorDiv (qMod (maxEnd us) 3600) 60
  if 0 < hours then
    toString hours ++ " hour" ++ (if hours ≠ 1 then "s" else "") ++ ", "
      ++ toString minutes ++ " minute" ++ (if minutes ≠ 1 then "s" else "")
  else
    toString minutes ++ " minute" ++ (if minutes ≠ 1 then "s" else "")

/-- `sorted(set(u['speaker'] for u in utterances))` (line 67). -/
def sortedUniqueSpeakers (us : List Utterance) : List String :=
  ((us.map (fun u => u.speaker)).dedup).mergeSort (fun a b => decide (a ≤ b))

/-- `participants_str = ", ".join(unique_speakers)` (line 68). -/
def participantsStrOf (us : List Utterance) : String :=
  joinWith ", " (sortedUniqueSpeakers us)

/-- The `final_output` f-string (lines 251-266). -/
def finalOutput (current_date duration_str participants_str
    full_conversation_text summary_section : String) : String :=
  "# Meeting Transcript\n\n**Date:** " ++ current_date
    ++ "\n**Duration:** " ++ duration_str
    ++ "\n**Participants:** " ++ participants_str
    ++ "\n\n---\n\n## Conversation\n\n" ++ full_conversation_text
    ++ "\n\n---\n\n" ++ summary_section ++ "\n"

theorem maxEnd_mem : ∀ (us : List Utterance), us ≠ [] →
    maxEnd us ∈ us.map (fun u => u.«end»)
  | [], h => absurd rfl h
  | [u], _ => by simp [maxEnd]
  | u :: u' :: rest, _ => by
    rcases max_choice u.«end» (maxEnd (u' :: rest)) with h | h
    · simp [maxEnd, h]
    · have hm := maxEnd_mem (u' :: rest) (by simp)
      rw [show maxEnd (u :: u' :: rest) = max u.«end» (maxEnd (u' :: rest)) from rfl, h]
      simp only [List.map_cons, List.mem_cons]
      right
      simpa using hm

theorem le_maxEnd : ∀ (us : List Utterance) (u : Utterance), u ∈ us →
    u.«end» ≤ maxEnd us
  | [], u, h => by simp at h
  | [u'], u, h => by
    rw [List.mem_singleton] at h
    subst h
    exact le_of_eq rfl
  | u' :: u'' :: rest, u, h => by
    rw [show maxEnd (u' :: u'' :: rest) = max u'.«end» (maxEnd (u'' :: rest)) from rfl]
    rcases List.mem_cons.mp h with rfl | h2
    · exact le_max_left _ _
    · exact le_max_of_le_right (le_maxEnd (u'' :: rest) u h2)

/-- C8: the final document is the header (with the computed date, duration
and comma-joined sorted unique speaker list), a horizontal rule, the
conversation text, a horizontal rule and the summary body, in that order;
the duration derives from the maximum utterance end (e.g. rendering
`"1 hour, 5 minutes"`), and the participant list is sorted, duplicate-free
and exactly the set of utterance speakers. -/
theorem finalDocument_spec (us : List Utterance) (hne : us ≠ [])
    (date conv summary : String) :
    finalOutput date (durationStrOf us) (participantsStrOf us) conv summary
      = "# Meeting Transcript\n\n**Date:** " ++ date ++ "\n**Duration:** "
        ++ durationStrOf us ++ "\n**Participants:** " ++ participantsStrOf us
        ++ "\n\n---\n\n## Conversation\n\n" ++ conv ++ "\n\n---\n\n" ++ summary ++ "\n" ∧
    maxEnd us ∈ us.map (fun u => u.«end») ∧
    (∀ u ∈ us, u.«end» ≤ maxEnd us) ∧
    (qFloorDiv (maxEnd us) 3600 = 1 ∧ qFloorDiv (qMod (maxEnd us) 3600) 60 = 5 →
      durationStrOf us = "1 hour, 5 minutes") ∧
    List.Sorted (· ≤ ·) (sortedUniqueSpeakers us) ∧
    (sortedUniqueSpeakers us).Nodup ∧
    (∀ sp, sp ∈ sortedUniqueSpeakers us ↔ sp ∈ us.map (fun u => u.speaker)) ∧
    participantsStrOf us = joinWith ", " (sortedUniqueSpeakers us) := by
  have hperm : (sortedUniqueSpeakers us).Perm ((us.map (fun u => u.speaker)).dedup) :=
    List.mergeSort_perm _ _
  refine ⟨rfl, maxEnd_mem us hne, le_maxEnd us, ?_, ?_, ?_, ?_, rfl⟩
  · rintro ⟨h1, h2⟩
    simp only [durationStrOf, h1, h2]
    rfl
  · exact List.sorted_mergeSort' _
  · exact hperm.nodup_iff.mpr (List.nodup_dedup _)
  · intro sp
    rw [hperm.mem_iff, List.mem_dedup]

/-- Witness for `finalDocument_spec`: a concrete meeting whose last
utterance ends at 3900 s renders the duration `"1 hour, 5 minutes"`. -/
theorem finalDocument_spec_witness :
    durationStrOf [⟨"Bob", "hi", 0, 3900⟩, ⟨"Alice", "yo", 5, 10⟩]
      = "1 hour, 5 minutes" := by
  have hmax : maxEnd [⟨"Bob", "hi", 0, 3900⟩, ⟨"Alice", "yo", 5, 10⟩] = 3900 := by
    rw [show maxEnd [⟨"Bob", "hi", 0, 3900⟩, ⟨"Alice", "yo", 5, 10⟩]
        = max (3900 : ℚ) 10 from rfl]
    norm_num
  exact (finalDocument_spec [⟨"Bob", "hi", 0, 3900⟩, ⟨"Alice", "yo", 5, 10⟩]
      (by simp) "d" "c" "s").2.2.2.1
    ⟨by rw [qFloorDiv, hmax]; norm_num,
     by rw [qFloorDiv, qMod, hmax]; norm_num [qFloorDiv]⟩

/-! ## `format_transcript_with_llm` end-to-end result shape (`llm.py` 39-267) -/

/-- Text-path summary cleanup (lines 202-206): strip, then fence cleanup,
with no final strip. -/
def textCleanSummary (resp : String) : String := stripFences (pyStrip resp)

/-- Phase-2 outcome `(summary_section, action_items)` after the try/except
cascade (lines 160-208): the JSON request's parsed keys on success;
otherwise the cleaned plain-text retry with an empty item list; otherwise
the preset failure summary with an empty item list. -/
def summarizerOutcome (jsonRes : Except Unit (String × List ActionItem))
    (textRes : Except Unit String) : String × List ActionItem :=
  match jsonRes with
  | .ok (s, its) => (s, its)
  | .error _ =>
    match textRes with
    | .ok t => (textCleanSummary t, [])
    | .error _ => ("## Meeting Summary\n\n(Summary generation failed).", [])

/-- The plain `[HH:MM:SS] speaker: text` rendering returned when LLM
formatting is disabled (lines 44-48) and used on prompt-load failure
(lines 52-58). -/
def simpleTranscript (us : List Utterance) : String :=
  joinWith "\n" (us.map (fun u =>
    "[" ++ format_timestamp u.start ++ "] " ++ u.speaker ++ ": " ++ u.text))

/-- What `format_transcript_with_llm` evaluates to: a 3-tuple on the LLM
path, a bare string when `enable_llm_formatting` is false. -/
inductive FmtResult where
  | triple (doc summary : String) (items : List ActionItem)
  | single (s : String)
deriving Repr, DecidableEq

/-- `format_transcript_with_llm`, with the external effects abstracted:
`enable` = `settings.enable_llm_formatting`; `prompt` = `load_prompt()`
(`""` on load failure); `winOracle i` = the Phase-1 completion for window
`i` (`.error` = raised); `jsonRes` = the Phase-2 JSON request and parse
(`.error` = raised or unparsable); `textRes` = the plain-text retry;
`current_date` = `datetime.now().strftime("%B %d, %Y")`. -/
def format_transcript_with_llm (enable : Bool) (prompt : String)
    (winOracle : ℕ → Except Unit String)
    (jsonRes : Except Unit (String × List ActionItem))
    (textRes : Except Unit String)
    (us : List Utterance) (current_date : String) : FmtResult :=
  if !enable then
    .single (simpleTranscript us)
  else if prompt = "" then
    .triple (simpleTranscript us) "" []
  else
    let duration_str := if us.isEmpty then "Unknown" else durationStrOf us
    let participants_str := if us.isEmpty then "Unknown" else participantsStrOf us
    let so := summarizerOutcome jsonRes textRes
    .triple
      (finalOutput current_date duration_str participants_str
        (fullConversationText winOracle us) so.1)
      so.1
      (resolveActionItems so.1 so.2)

/-- Python's `a, b, c = r` in `process_transcription` (line 112): succeeds
for a 3-tuple; for a string it iterates characters, so it succeeds only
when the string has exactly 3 characters. -/
def unpackThreeSucceeds : FmtResult → Bool
  | .triple _ _ _ => true
  | .single s => s.length == 3

theorem joinWith_length_ge_head (sep x : String) (l : List String) :
    x.length ≤ (joinWith sep (x :: l)).length := by
  cases l with
  | nil => exact le_of_eq rfl
  | cons y l =>
    rw [show joinWith sep (x :: y :: l) = x ++ sep ++ joinWith sep (y :: l) from rfl]
    simp only [String.length_append]
    omega

theorem simpleTranscript_length_ne_three (us : List Utterance) :
    (simpleTranscript us).length ≠ 3 := by
  cases us with
  | nil => decide
  | cons u rest =>
    have hline : 5 ≤ ("[" ++ format_timestamp u.start ++ "] " ++ u.speaker
        ++ ": " ++ u.text).length := by
      have e1 : ("[" : String).length = 1 := rfl
      have e2 : ("] " : String).length = 2 := rfl
      have e3 : (": " : String).length = 2 := rfl
      simp only [String.length_append, e1, e2, e3]
      omega
    have hj := joinWith_length_ge_head "\n"
      ("[" ++ format_timestamp u.start ++ "] " ++ u.speaker ++ ": " ++ u.text)
      (rest.map (fun u =>
        "[" ++ format_timestamp u.start ++ "] " ++ u.speaker ++ ": " ++ u.text))
    have heq : simpleTranscript (u :: rest)
        = joinWith "\n" (("[" ++ format_timestamp u.start ++ "] " ++ u.speaker
            ++ ": " ++ u.text) :: rest.map (fun u =>
              "[" ++ format_timestamp u.start ++ "] " ++ u.speaker ++ ": " ++ u.text)) := by
      rw [simpleTranscript, List.map_cons]
    rw [heq]
    omega

/-- C10: with `enable_llm_formatting` false the function returns the bare
`[timestamp] speaker: text` string, which three-way unpacking always
rejects (its length is never 3); with it true, every path — prompt-load
failure included — returns a 3-tuple, which three-way unpacking accepts. -/
theorem format_result_shape (prompt : String) (winOracle : ℕ → Except Unit String)
    (jsonRes : Except Unit (String × List ActionItem)) (textRes : Except Unit String)
    (us : List Utterance) (date : String) :
    format_transcript_with_llm false prompt winOracle jsonRes textRes us date
      = .single (simpleTranscript us) ∧
    unpackThreeSucceeds
        (format_transcript_with_llm false prompt winOracle jsonRes textRes us date)
      = false ∧
    format_transcript_with_llm true "" winOracle jsonRes textRes us date
      = .triple (simpleTranscript us) "" [] ∧
    (∃ doc sum items,
      format_transcript_with_llm true prompt winOracle jsonRes textRes us date
        = .triple doc sum items) ∧
    unpackThreeSucceeds
        (format_transcript_with_llm true prompt winOracle jsonRes textRes us date)
      = true := by
  have hsingle : format_transcript_with_llm false prompt winOracle jsonRes textRes us date
      = .single (simpleTranscript us) := rfl
  have htriple : ∃ doc sum items,
      format_transcript_with_llm true prompt winOracle jsonRes textRes us date
        = .triple doc sum items := by
    by_cases hp : prompt = ""
    · subst hp
      exact ⟨simpleTranscript us, "", [], rfl⟩
    · refine ⟨finalOutput date (if us.isEmpty then "Unknown" else durationStrOf us)
          (if us.isEmpty then "Unknown" else participantsStrOf us)
          (fullConversationText winOracle us) (summarizerOutcome jsonRes textRes).1,
        (summarizerOutcome jsonRes textRes).1,
        resolveActionItems (summarizerOutcome jsonRes textRes).1
          (summarizerOutcome jsonRes textRes).2, ?_⟩
      simp [format_transcript_with_llm, hp]
  refine ⟨hsingle, ?_, rfl, htriple, ?_⟩
  · rw [hsingle]
    simp only [unpackThreeSucceeds]
    simpa using simpleTranscript_length_ne_three us
  · obtain ⟨doc, sum, items, h⟩ := htriple
    rw [h]
    rfl

/-! ## `finally` cleanup of temporary files (`transcription_workflow.py` 200-221) -/

/-- Outcome of one `os.remove` call. -/
inductive DelResult where
  | success
  | permError
  | otherError
deriving Repr, DecidableEq

/-- The chunk-file loop (lines 202-207): for each chunk path, if the file
exists, one `os.remove` attempt; any exception is caught, logged and
swallowed — there is no retry.  The file system is a list of existing
paths; `oracle p n` is what the OS does on the `n`-th (0-based) removal
attempt for `p`. -/
def removeChunks (oracle : String → ℕ → DelResult) :
    List String → List String → List String
  | fs, [] => fs
  | fs, p :: ps =>
    if p ∈ fs then
      match oracle p 0 with
      | .success => removeChunks oracle (fs.erase p) ps
      | _ => removeChunks oracle fs ps
    else removeChunks oracle fs ps

/-- The temp-file loop (lines 209-221): if the file exists, up to 3
`os.remove` attempts; a success breaks; `PermissionError` sleeps and
retries (warning on the last attempt); any other exception is logged and
the loop likewise proceeds to the next attempt.  Nothing is re-raised. -/
def removeTemp (oracle : String → ℕ → DelResult) (fs : List String)
    (temp : String) : List String :=
  if temp ∈ fs then
    match oracle temp 0 with
    | .success => fs.erase temp
    | _ =>
      match oracle temp 1 with
      | .success => fs.erase temp
      | _ =>
        match oracle temp 2 with
        | .success => fs.erase temp
        | _ => fs
  else fs

/-- The whole `finally` block: chunk files first, then the temp file. -/
def cleanupFiles (oracle : String → ℕ → DelResult) (fs : List String)
    (chunkPaths : List String) (temp : String) : List String :=
  removeTemp oracle (removeChunks oracle fs chunkPaths) temp

/-- `try: body ... finally: cleanup`: the cleanup runs on success and on
exception alike, and the body's outcome — return value or raised
exception — passes through unchanged. -/
def runWithCleanup {E A : Type} (body : Except E A)
    (oracle : String → ℕ → DelResult) (fs : List String)
    (chunkPaths : List String) (temp : String) : Except E A × List String :=
  (body, cleanupFiles oracle fs chunkPaths temp)

/-- A delete oracle whose failures are transient: the first attempt on any
path raises `PermissionError`, every later attempt succeeds. -/
def transientDeleteOracle : String → ℕ → DelResult :=
  fun _ n => if n = 0 then .permError else .success

/-- C9 counterexample: under a transient file lock (first delete attempt
fails, a retry would succeed) a chunk file is *not* deleted — the chunk
loop never retries — while the same transient failure on the temp file is
retried and the temp file is deleted. -/
theorem cleanup_chunk_no_retry_counterexample :
    cleanupFiles transientDeleteOracle ["c1"] ["c1"] "t" = ["c1"] ∧
    transientDeleteOracle "c1" 1 = DelResult.success ∧
    removeTemp transientDeleteOracle ["t"] "t" = [] := by
  refine ⟨?_, rfl, ?_⟩ <;> decide

/-- C9 (amended): the cleanup runs on every exit path and never changes the
invocation's outcome; the temp audio file is deleted whenever one of its
three removal attempts succeeds (bounded retry on transient failure) and
left in place, without error, when all three fail; each chunk file gets
exactly one removal attempt — deleted on success, left in place, without
error, on any failure. -/
theorem cleanup_spec {E A : Type} (body : Except E A)
    (oracle : String → ℕ → DelResult) (fs : List String)
    (chunkPaths : List String) (temp p : String) (ps : List String) :
    runWithCleanup body oracle fs chunkPaths temp
      = (body, cleanupFiles oracle fs chunkPaths temp) ∧
    (runWithCleanup body oracle fs chunkPaths temp).1 = body ∧
    (temp ∈ fs →
      ((oracle temp 0 = DelResult.success ∨ oracle temp 1 = DelResult.success ∨
          oracle temp 2 = DelResult.success) →
        removeTemp oracle fs temp = fs.erase temp) ∧
      (oracle temp 0 ≠ DelResult.success → oracle temp 1 ≠ DelResult.success →
          oracle temp 2 ≠ DelResult.success →
        removeTemp oracle fs temp = fs)) ∧
    (temp ∉ fs → removeTemp oracle fs temp = fs) ∧
    removeChunks oracle fs (p :: ps)
      = removeChunks oracle
          (if p ∈ fs ∧ oracle p 0 = DelResult.success then fs.erase p else fs) ps := by
  refine ⟨rfl, rfl, ?_, ?_, ?_⟩
  · intro hmem
    constructor
    · intro hsucc
      rw [removeTemp, if_pos hmem]
      rcases h0 : oracle temp 0 with _ | _ | _ <;>
        rcases h1 : oracle temp 1 with _ | _ | _ <;>
          rcases h2 : oracle temp 2 with _ | _ | _ <;>
            simp_all
    · intro h0 h1 h2
      rw [removeTemp, if_pos hmem]
      rcases hh0 : oracle temp 0 with _ | _ | _ <;>
        rcases hh1 : oracle temp 1 with _ | _ | _ <;>
          rcases hh2 : oracle temp 2 with _ | _ | _ <;>
            simp_all
  · intro hmem
    rw [removeTemp, if_neg hmem]
  · by_cases hmem : p ∈ fs
    · rcases h0 : oracle p 0 with _ | _ | _ <;>
        simp [removeChunks, hmem, h0]
    · simp [removeChunks, hmem]

/-- Witness for `cleanup_spec`: the transient failure on the temp file is
retried and the file is removed. -/
theorem cleanup_spec_witness :
    removeTemp transientDeleteOracle ["t"] "t" = List.erase ["t"] "t" :=
  ((cleanup_spec (Except.ok (0 : ℕ) : Except Unit ℕ) transientDeleteOracle
      ["t"] [] "t" "p" []).2.2.1 (by decide)).1 (by decide)

end Diarize
